import Mathlib

/-!
Shallow embedding of the DA-Research repository's pure cores, with theorems
checking the specification's claims against the code.

Sources embedded here:
* `src/protocol/Avail/block_bloat_test_autoshrink.py` — `hex_to_int`,
  `deterministic_payload`, `bloat_autoshrink` (capacity probe).
* `src/protocol/Avail/block_bloat_test.py` — `hex_to_int`, `bloat_block`
  (greedy growth probe shared with the autoshrink variant).
* `src/protocol/Espresso/espresso_max_tps.py` — `AsyncEspressoDAClient.submit`
  retry loop, `mk_payload`, `submit_many_and_wait`, semaphore discipline.
* `src/protocol/Avail/avail_tps.py` and
  `src/protocol/Celestia/celestia_tps.py` — `calculate_tps`.

Conventions: Python ints are `Int`/`Nat`; floats that only carry exact small
quotients are `ℚ`; a function that can raise returns `Except PyErr _`;
`None` is `Option.none`.  Loops without a structural bound take an explicit
fuel argument; exhausting the fuel is reported by a dedicated constructor so
that non-termination of the source loop is observable as "every fuel runs out".
-/

/-- Python exception classes that the embedded code can raise. -/
inductive PyErr where
  | typeError
  | keyError
  | valueError
deriving DecidableEq, Repr

/-! ## Python `int(...)` parsing (used by both `hex_to_int` helpers)

`int(s)` / `int(s, 16)`: strip whitespace, optional sign, then digits of the
base with single underscores allowed between digits; base 16 additionally
allows an optional `0x`/`0X` prefix.  A failed parse is `none`
(Python raises `ValueError`; the callers decide whether they catch it). -/

/-- Value of a decimal digit character, if it is one. -/
def digit10 (c : Char) : Option Nat :=
  if c.isDigit then some (c.toNat - 48) else none

/-- Value of a hexadecimal digit character, if it is one. -/
def digit16 (c : Char) : Option Nat :=
  if c.isDigit then some (c.toNat - 48)
  else if 97 ≤ c.toNat ∧ c.toNat ≤ 102 then some (c.toNat - 87)
  else if 65 ≤ c.toNat ∧ c.toNat ≤ 70 then some (c.toNat - 55)
  else none

/-- Continue a digit sequence: digits accumulate, a single `_` must be
followed by a digit. -/
def digitsRest (dv : Char → Option Nat) (base : Nat) : Nat → List Char → Option Nat
  | acc, [] => some acc
  | acc, '_' :: c :: rest =>
    match dv c with
    | some d => digitsRest dv base (acc * base + d) rest
    | none => none
  | acc, c :: rest =>
    match dv c with
    | some d => digitsRest dv base (acc * base + d) rest
    | none => none

/-- A nonempty digit sequence (no leading underscore). -/
def digitsAll (dv : Char → Option Nat) (base : Nat) : List Char → Option Nat
  | [] => none
  | c :: rest =>
    match dv c with
    | some d => digitsRest dv base d rest
    | none => none

/-- Strip leading and trailing whitespace and read an optional sign. -/
def signAndCore (cs : List Char) : Bool × List Char :=
  let cs := (cs.dropWhile Char.isWhitespace).reverse.dropWhile Char.isWhitespace |>.reverse
  match cs with
  | '-' :: rest => (true, rest)
  | '+' :: rest => (false, rest)
  | _ => (false, cs)

/-- Python `int(s)` (base 10). -/
def pyInt10 (s : String) : Option Int :=
  let (neg, core) := signAndCore s.toList
  (digitsAll digit10 10 core).map fun n => if neg then -(n : Int) else (n : Int)

/-- Python `int(s, 16)`: like base 10 but hex digits and an optional
`0x`/`0X` prefix after the sign. -/
def pyInt16 (s : String) : Option Int :=
  let (neg, core) := signAndCore s.toList
  let core := match core with
    | '0' :: 'x' :: rest => rest
    | '0' :: 'X' :: rest => rest
    | other => other
  (digitsAll digit16 16 core).map fun n => if neg then -(n : Int) else (n : Int)

/-- An argument to `hex_to_int`: a string, or any non-string Python value. -/
inductive PyObj where
  | str (s : String)
  | nonStr
deriving DecidableEq

/-- Python `h.startswith(pre)` (on the character lists, so that it also
evaluates inside the kernel). -/
def pyStartsWith (h pre : String) : Bool := pre.data.isPrefixOf h.data

/-- `hex_to_int` from `block_bloat_test.py` (lines 43–51): non-strings map to
`None`; a string starting with `0x` is parsed with `int(h, 16)` *outside* any
`try`, so a malformed hex string raises `ValueError`; other strings are parsed
with `int(h)` inside a `try` that returns `None` on failure. -/
def hex_to_int_bloat : PyObj → Except PyErr (Option Int)
  | .nonStr => .ok none
  | .str h =>
    if pyStartsWith h ("0x") then
      match pyInt16 h with
      | some v => .ok (some v)
      | none => .error .valueError
    else
      match pyInt10 h with
      | some v => .ok (some v)
      | none => .ok none

/-- `hex_to_int` from `block_bloat_test_autoshrink.py` (lines 11–17): the whole
conversion sits inside one `try`, so every failure returns `None`. -/
def hex_to_int_autoshrink : PyObj → Except PyErr (Option Int)
  | .nonStr => .ok none
  | .str h =>
    if pyStartsWith h ("0x") then .ok (pyInt16 h)
    else .ok (pyInt10 h)

/-! ## The capacity probe `bloat_autoshrink`
(`block_bloat_test_autoshrink.py`, lines 131–174)

The network is a deterministic oracle: `submit (size, count)` stands for the
outcome of `submit_batch(sub, kp, size, count, app_id, wait_finalized)` and
yields the `ok` flag and the `info` string.  Every function additionally
returns the list of `(size, count)` attempts it actually made, in order.
`int(nn * 1.1) + 1` is modelled as `nn * 11 / 10 + 1`: for the integer ranges
the probe reaches, the IEEE-double product has the same floor as the exact
rational. -/

/-- A deterministic Submit oracle: `(ok, info)` for each `(size, count)`. -/
abbrev Submit := Nat → Nat → Bool × String

/-- Python `in` on strings: does `p` occur as a contiguous run in `l`? -/
def containsSub (p : List Char) : List Char → Bool
  | [] => p.isEmpty
  | c :: rest => p.isPrefixOf (c :: rest) || containsSub p rest

/-- ASCII `str.lower()` on one character. -/
def lowerChar (c : Char) : Char :=
  if 65 ≤ c.toNat ∧ c.toNat ≤ 90 then Char.ofNat (c.toNat + 32) else c

/-- `"too large" in (last_err or "").lower()` (line 164). -/
def tooLarge (info : String) : Bool :=
  containsSub ("too large").data (info.data.map lowerChar)

/-- The greedy growth loop (lines 150–158, identical in shape to
`bloat_block`'s ramp-up at `block_bloat_test.py` lines 173–183):
`while probe > best_n and probe <= max_calls`, on acceptance
`best_n := probe; probe := min(max_calls, int(probe*1.1)+1)`, stop at the
first rejection.  Returns the attempts made and the final `best_n`. -/
def grow (submit : Submit) (size mc : Nat) : Nat → Nat → Nat → List (Nat × Nat) × Nat
  | 0, best, _ => ([], best)
  | fuel + 1, best, probe =>
    if best < probe ∧ probe ≤ mc then
      if (submit size probe).1 then
        let r := grow submit size mc fuel probe (min mc (probe * 11 / 10 + 1))
        ((size, probe) :: r.1, r.2)
      else ([(size, probe)], best)
    else ([], best)

/-- Result of the inner halving loop (lines 143–166). -/
inductive InnerRes where
  | found (best : Nat)
  | stop (lastErr : Option String)
  | fuelOut
deriving DecidableEq

/-- The inner count search (lines 143–166): `while nn >= min_calls`, submit;
on success run the growth loop and return its best; on rejection
`nn := max(min_calls, nn // 2)` and break out to the payload shrink only when
`nn == 1` and the error mentions "too large".  `gfuel` is the growth loop's
fuel; `fuel` bounds this loop, whose source form has no bound. -/
def innerLoop (submit : Submit) (size mc minC gfuel : Nat) :
    Nat → Nat → Option String → List (Nat × Nat) × InnerRes
  | 0, _, _ => ([], .fuelOut)
  | fuel + 1, nn, lastErr =>
    if minC ≤ nn then
      let (ok, info) := submit size nn
      if ok then
        let g := grow submit size mc gfuel nn (min mc (nn * 11 / 10 + 1))
        ((size, nn) :: g.1, .found g.2)
      else
        let nn' := max minC (nn / 2)
        if nn' = 1 ∧ tooLarge info then ([(size, nn)], .stop (some info))
        else
          let r := innerLoop submit size mc minC gfuel fuel nn' (some info)
          ((size, nn) :: r.1, r.2)
    else ([], .stop lastErr)

/-- Overall outcome of `bloat_autoshrink`. -/
inductive ProbeRes where
  | found (size count : Nat)
  | noFeasible
  | retNone
  | fuelOut
deriving DecidableEq

/-- The outer payload-shrink loop (lines 138–174): `while size >= min_bytes`,
run the inner search with `nn = min(n, max_calls)`; if it falls through,
raise (`noFeasible`) when `size <= min_bytes`, else halve the size and reset
`n = max(min_calls, start_calls // max(1, ceil(start_bytes / size)))`.
Falling out of the `while` returns Python `None` (`retNone`). -/
def outerLoop (submit : Submit) (minB minC mc startB startC ifuel gfuel : Nat) :
    Nat → Nat → Nat → List (Nat × Nat) × ProbeRes
  | 0, _, _ => ([], .fuelOut)
  | fuel + 1, size, n =>
    if minB ≤ size then
      let nn := min n mc
      match innerLoop submit size mc minC gfuel ifuel nn none with
      | (tr, .found best) => (tr, .found size best)
      | (tr, .fuelOut) => (tr, .fuelOut)
      | (tr, .stop _) =>
        if size ≤ minB then (tr, .noFeasible)
        else
          let size' := size / 2
          let n' := max minC (startC / max 1 ((startB + size' - 1) / size'))
          let r := outerLoop submit minB minC mc startB startC ifuel gfuel fuel size' n'
          (tr ++ r.1, r.2)
    else ([], .retNone)

/-- `bloat_autoshrink` (lines 131–174): clamp the start values
(`size = max(min_bytes, start_bytes)`, `n = max(min_calls, start_calls)`,
`max_calls = max(min_calls, max_calls)`) and run the outer loop.  The single
`fuel` bounds the outer loop, each inner search, and each growth loop. -/
def bloat_autoshrink (submit : Submit)
    (startB startC maxC minB minC fuel : Nat) : List (Nat × Nat) × ProbeRes :=
  outerLoop submit minB minC (max minC maxC) startB startC fuel fuel
    fuel (max minB startB) (max minC startC)

/-! ## Payload generators (C7)

`deterministic_payload` (`block_bloat_test_autoshrink.py` lines 59–66) is a
linear-congruential generator; it reads no clock and no OS randomness.
`mk_payload` (`espresso_max_tps.py` lines 147–157) embeds
`str(int(time.time() * 1000))` in the generated bytes, so the current time is
modelled as an explicit argument `nowMs` (the truncated milliseconds).
Byte strings are `List Nat` with entries below 256. -/

/-- One LCG step: `x = (x * 1664525 + 1013904223) & 0xFFFFFFFF`. -/
def lcgStep (x : Nat) : Nat := (x * 1664525 + 1013904223) % 4294967296

/-- The generation loop of `deterministic_payload`: each byte is
`(x >> 24) & 0xFF` after stepping the LCG. -/
def lcgBytes : Nat → Nat → List Nat
  | 0, _ => []
  | k + 1, x =>
    let x' := lcgStep x
    (x' / 16777216 % 256) :: lcgBytes k x'

/-- `deterministic_payload(n_bytes)` (lines 59–66), seed `0x42`. -/
def deterministic_payload (nBytes : Nat) : List Nat := lcgBytes nBytes 0x42

/-- `deterministic_payload` placed in a timed environment: the source body
never reads the clock, so the wrapper ignores `nowMs`.  This makes the
time-independence of the generator a statable property. -/
def deterministic_payload_at (nBytes : Nat) (_nowMs : Nat) : List Nat :=
  deterministic_payload nBytes

/-- ASCII bytes of a string (all characters involved are 7-bit). -/
def asciiBytes (s : String) : List Nat := s.toList.map Char.toNat

/-- The `base_msg` used by `submit_many_and_wait` (line 178):
`b"Espresso async stress test payload "`. -/
def baseMsg : List Nat := asciiBytes ("Espresso async stress test payload ")

/-- The `while sum(len(p) for p in pieces) < size: pieces.append(s)` loop of
`mk_payload`, with the accumulated concatenation; `s` is nonempty in every
call, so `size + 1` rounds of fuel always suffice. -/
def mkRep (s : List Nat) (size : Nat) : Nat → List Nat → List Nat
  | 0, acc => acc
  | f + 1, acc => if acc.length < size then mkRep s size f (acc ++ s) else acc

/-- `mk_payload(base, idx, size)` (lines 147–157):
`s = base + f"#{idx}".encode() + b"-" + str(int(time.time()*1000)).encode()`,
returned truncated to `size`, repeating `s` first when it is too short.
`nowMs` is the millisecond clock read the source performs. -/
def mk_payload (base : List Nat) (idx size nowMs : Nat) : List Nat :=
  let s := base ++ asciiBytes ("#" ++ toString idx) ++ [45] ++ asciiBytes (toString nowMs)
  if size ≤ s.length then s.take size
  else (mkRep s size (size + 1) []).take size

/-! ## `AsyncEspressoDAClient.submit` retry loop (C6)
(`espresso_max_tps.py`, lines 44–92)

The network is an attempt-indexed oracle: `responses attempt` is what the
POST of that attempt produces.  A `200` response carries the result of the
body-extraction chain (lines 69–84): `some tx` when a transaction string is
found, `none` when the chain falls through to
`raise RuntimeError("Unexpected submit response")`.  The output records how
many POSTs were made, every `asyncio.sleep` duration in order, and the final
result (`.ok tx`, or `.error msg` for the `raise last_exc` at line 92 /
non-caught propagation). -/

/-- One attempt's outcome at the HTTP layer. -/
inductive SubmitResp where
  | ok (txt : Option String)
  | http (status : Nat) (text : String)
  | exc (e : String)

/-- `resp.status in (429, 500, 502, 503, 504)` (line 63). -/
def retryableStatus (s : Nat) : Bool :=
  s = 429 || s = 500 || s = 502 || s = 503 || s = 504

deriving instance DecidableEq for Except

/-- Observable outcome of one `submit` call. -/
structure SubmitOut where
  posts : Nat
  sleeps : List ℚ
  result : Except String String
deriving DecidableEq

/-- The `for attempt in range(1, retries + 1)` loop.  `rem` is the number of
iterations the range still has (`retries + 1 - attempt`).  A retryable status
sets `last_exc` and falls through to the next iteration with **no** sleep
(nothing was raised, so the `except` block is skipped); any raised exception —
including the `raise` for a non-retryable status, which the loop's own
`except Exception` catches — sleeps `backoff_base * 2**(attempt-1)` and
retries while `attempt < retries`, else breaks; the loop's end re-raises
`last_exc`. -/
def submitAux (responses : Nat → SubmitResp) (retries : Nat) (backoff : ℚ) :
    Nat → Nat → Option String → Nat → List ℚ → SubmitOut
  | 0, _, lastExc, posts, sleeps =>
    ⟨posts, sleeps.reverse, .error (lastExc.getD ("TypeError: raised None"))⟩
  | rem + 1, attempt, _, posts, sleeps =>
    match responses attempt with
    | .ok (some tx) => ⟨posts + 1, sleeps.reverse, .ok tx⟩
    | .ok none =>
      let e := "Unexpected submit response"
      if attempt < retries then
        submitAux responses retries backoff rem (attempt + 1) (some e) (posts + 1)
          (backoff * 2 ^ (attempt - 1) :: sleeps)
      else ⟨posts + 1, sleeps.reverse, .error e⟩
    | .http st text =>
      let e := "HTTP " ++ toString st ++ ": " ++ text
      if retryableStatus st then
        submitAux responses retries backoff rem (attempt + 1) (some e) (posts + 1) sleeps
      else if attempt < retries then
        submitAux responses retries backoff rem (attempt + 1) (some e) (posts + 1)
          (backoff * 2 ^ (attempt - 1) :: sleeps)
      else ⟨posts + 1, sleeps.reverse, .error e⟩
    | .exc e =>
      if attempt < retries then
        submitAux responses retries backoff rem (attempt + 1) (some e) (posts + 1)
          (backoff * 2 ^ (attempt - 1) :: sleeps)
      else ⟨posts + 1, sleeps.reverse, .error e⟩

/-- `AsyncEspressoDAClient.submit(namespace, payload, retries, backoff_base)`
restricted to its retry behaviour (lines 56–92). -/
def clientSubmit (responses : Nat → SubmitResp) (retries : Nat) (backoff : ℚ) :
    SubmitOut :=
  submitAux responses retries backoff retries 1 none 0 []

/-! ## `submit_many_and_wait` (C5)
(`espresso_max_tps.py`, lines 160–235)

The per-unit outcomes are deterministic oracles: `submitRes i` is what
`do_submit(i)` observes (`.ok hash` or `.error msg`, the latter covering both
transport failures and the `asyncio.wait_for` timeout), and `pollRes h` is
what `wait_for_inclusion` observes for hash `h` (`some height?` when found,
`none` on timeout).  The event loop only permutes the append order of the
result lists; the embedding fixes index order, which the counting claims do
not depend on. -/

/-- `submit_many_and_wait` (lines 160–235): returns `(included, failed)`. -/
def submit_many_and_wait (num : Nat) (submitRes : Nat → Except String String)
    (pollRes : String → Option (Option Int)) :
    List (String × Option Int) × List (String × String) :=
  let results := (List.range num).map fun i => (i, submitRes i)
  let failed_submissions := results.filterMap fun p =>
    match p.2 with
    | .error e => some ("submit#" ++ toString p.1, e)
    | .ok _ => none
  let tx_hashes := results.filterMap fun p => p.2.toOption
  if tx_hashes.isEmpty then ([], failed_submissions)
  else
    let included := tx_hashes.filterMap fun h => (pollRes h).map fun ht => (h, ht)
    let included_failures := tx_hashes.filterMap fun h =>
      match pollRes h with
      | none => some (h, "timeout")
      | some _ => none
    (included, failed_submissions ++ included_failures)

/-! ## `calculate_tps` (C8)
(`avail_tps.py` lines 85–109 and `celestia_tps.py` lines 33–83) -/

/-- An Avail block record as `calculate_tps` reads it: `.get` of a missing
key is `none`. -/
structure AvailBlock where
  block_timestamp : Option Int
  extrinsics_count : Option Int
deriving DecidableEq

/-- `calculate_tps(blocks)` from `avail_tps.py`: `blocks[-1]` is taken as the
first (earliest) block and `blocks[0]` as the last, trusting the list to be
in descending timestamp order; `end_time - start_time` raises `TypeError`
when a timestamp is missing (`None`); `time_diff <= 0` yields `0`; otherwise
the extrinsics total over the list divided by `time_diff`. -/
def avail_calculate_tps : List AvailBlock → Except PyErr ℚ
  | [] => .ok 0
  | b :: rest =>
    let first := (b :: rest).getLast (List.cons_ne_nil b rest)
    let last := b
    match first.block_timestamp, last.block_timestamp with
    | some st, some et =>
      let td : Int := et - st
      if td ≤ 0 then .ok 0
      else
        let total : Int := ((b :: rest).map fun blk => blk.extrinsics_count.getD 0).sum
        .ok ((total : ℚ) / (td : ℚ))
    | _, _ => .error .typeError

/-- A Celestia block record: `height` and `time` may be missing
(`block['height']` / `block['time']` then raise `KeyError`);
`msgCount` is `len(block.get('message_types', []))`, whose missing-key
default `[]` makes it `0`. -/
structure CelBlock where
  height : Option Int
  time : Option String
  msgCount : Nat
deriving DecidableEq

/-- Insert `x` after every element `y` with `le y x` — the insertion step of
a stable sort. -/
def insertLe {α : Type} (le : α → α → Bool) (x : α) : List α → List α
  | [] => [x]
  | y :: ys => if le y x then y :: insertLe le x ys else x :: y :: ys

/-- Python `sorted(l, key=...)` as a stable insertion sort (structural, so it
also evaluates inside the kernel). -/
def pySorted {α : Type} (le : α → α → Bool) (l : List α) : List α :=
  l.foldl (fun acc x => insertLe le x acc) []

/-- `'Z'` replaced by `'+00:00'` in a character list. -/
def replZChars : List Char → List Char
  | [] => []
  | c :: rest =>
    if c = 'Z' then '+' :: '0' :: '0' :: ':' :: '0' :: '0' :: replZChars rest
    else c :: replZChars rest

/-- `first_block['time'].replace('Z', '+00:00')` (lines 54–55). -/
def replZ (t : String) : String := ⟨replZChars t.data⟩

/-- `calculate_tps(blocks)` from `celestia_tps.py`: inside a
`try ... except KeyError: return 0`, sort by `height` (a missing height makes
the sort key raise `KeyError`), parse the first and last ISO times —
`datetime.fromisoformat` is the oracle `parse`, whose `ValueError` is **not**
caught — then `0` on non-positive elapsed seconds, else total messages over
the sorted list divided by the elapsed seconds. -/
def celestia_calculate_tps (parse : String → Except PyErr ℚ) :
    List CelBlock → Except PyErr ℚ
  | [] => .ok 0
  | b :: rest =>
    let blocks := b :: rest
    let body : Except PyErr ℚ :=
      if blocks.any fun blk => blk.height = none then .error .keyError
      else
        match pySorted (fun x y => decide (x.height.getD 0 ≤ y.height.getD 0)) blocks with
        | [] => .ok 0
        | f :: srest =>
          let l := (f :: srest).getLast (List.cons_ne_nil f srest)
          match f.time, l.time with
          | some t1, some t2 =>
            (parse (replZ t1)).bind fun st =>
              (parse (replZ t2)).bind fun et =>
                let td := et - st
                if td ≤ 0 then .ok 0
                else
                  let total : Nat := ((f :: srest).map fun blk => blk.msgCount).sum
                  .ok ((total : ℚ) / td)
          | _, _ => .error .keyError
    match body with
    | .error .keyError => .ok 0
    | r => r

/-- The aggregation the claim describes (and only it): `0` on an empty list
or non-positive elapsed time between the **earliest** and **latest** block,
else total transactions divided by that elapsed time, never an exception.
Stated for the Avail record shape. -/
def claimed_tps (blocks : List AvailBlock) : Except PyErr ℚ :=
  let ts := blocks.filterMap fun b => b.block_timestamp
  match ts with
  | [] => .ok 0
  | t :: trest =>
    let hi := trest.foldl max t
    let lo := trest.foldl min t
    let td : Int := hi - lo
    if td ≤ 0 then .ok 0
    else
      let total : Int := (blocks.map fun blk => blk.extrinsics_count.getD 0).sum
      .ok ((total : ℚ) / (td : ℚ))

/-! ## Semaphore discipline of the submit / poll workers (C9)
(`espresso_max_tps.py`, lines 175–231)

`submit_worker` and `poll_one` both have the shape
`async with semaphore: <body>`: acquire one permit, run the body (whose
awaits are `work` steps; `do_submit` catches every exception, so the body
always completes), release on exit.  The event loop interleaves the tasks
one step at a time; `Step` is that interleaving, with the semaphore's
available-permit count in the state.  A task "runs a Submit/Poll call" while
it holds a permit. -/

/-- One scheduled step of a worker task. -/
inductive Act where
  | acq
  | work
  | rel
deriving DecidableEq

/-- A task: its remaining program and whether it currently holds a permit. -/
structure TaskSt where
  prog : List Act
  holds : Bool
deriving DecidableEq

/-- The event-loop state: all tasks and the semaphore's available permits. -/
structure Sched where
  tasks : List TaskSt
  avail : Nat
deriving DecidableEq

/-- The body of `submit_worker i` (lines 196–198): acquire, run `do_submit`
(`k` awaits), release. -/
def submit_worker_prog (k : Nat) : List Act :=
  Act.acq :: List.replicate k Act.work ++ [Act.rel]

/-- The body of `poll_one txh` (lines 215–229): acquire, run
`wait_for_inclusion` (`k` awaits), release. -/
def poll_one_prog (k : Nat) : List Act :=
  Act.acq :: List.replicate k Act.work ++ [Act.rel]

/-- The initial state: every task at the start of its program, no permits
held, `asyncio.Semaphore(concurrency)` full. -/
def initSched (c : Nat) (progs : List (List Act)) : Sched :=
  ⟨progs.map fun p => ⟨p, false⟩, c⟩

/-- How many tasks currently hold a permit (are inside `async with`). -/
def holders (s : Sched) : Nat :=
  (s.tasks.map fun t => if t.holds then 1 else 0).sum

/-- One event-loop step: `acq` needs an available permit and takes it,
`work` is any await inside the body, `rel` returns the permit
(`async with` releases on every exit path). -/
inductive SchedStep : Sched → Sched → Prop where
  | acq (s : Sched) (i : Nat) (t : TaskSt) (rest : List Act) (a : Nat)
      (ht : s.tasks.get? i = some t) (hp : t.prog = Act.acq :: rest)
      (ha : s.avail = a + 1) :
      SchedStep s ⟨s.tasks.set i ⟨rest, true⟩, a⟩
  | work (s : Sched) (i : Nat) (t : TaskSt) (rest : List Act)
      (ht : s.tasks.get? i = some t) (hp : t.prog = Act.work :: rest) :
      SchedStep s ⟨s.tasks.set i ⟨rest, t.holds⟩, s.avail⟩
  | rel (s : Sched) (i : Nat) (t : TaskSt) (rest : List Act)
      (ht : s.tasks.get? i = some t) (hp : t.prog = Act.rel :: rest) :
      SchedStep s ⟨s.tasks.set i ⟨rest, false⟩, s.avail + 1⟩

/-- Reachability under the event loop. -/
def SchedReach : Sched → Sched → Prop := Relation.ReflTransGen SchedStep

/-- A list of steps that are all body work. -/
def allWork (w : List Act) : Prop := ∀ a ∈ w, a = Act.work

/-- The states a well-formed worker task can be in: not yet acquired (its
whole `acq; body; rel` program remains), holding (some body suffix then the
release remains), or finished. -/
def TaskOk (t : TaskSt) : Prop :=
  (t.holds = false ∧ ((∃ w, allWork w ∧ t.prog = Act.acq :: w ++ [Act.rel]) ∨ t.prog = []))
  ∨ (t.holds = true ∧ ∃ w, allWork w ∧ t.prog = w ++ [Act.rel])

/-- The semaphore invariant: every task is in a well-formed state and the
available permits plus the held permits are exactly the initial
`concurrency`. -/
def SchedInv (c : Nat) (s : Sched) : Prop :=
  (∀ t ∈ s.tasks, TaskOk t) ∧ s.avail + holders s = c

/-! ## Concrete oracles used as inputs of specific theorems -/

/-- An oracle that rejects every attempt with a message that does not
mention "too large". -/
def rejectAll : Submit := fun _ _ => (false, "boom")

/-- An oracle that rejects every attempt with the node's oversized-extrinsic
message. -/
def rejectTooLarge : Submit := fun _ _ => (false, "Transaction is too large")

/-- The C4 scenario oracle: accept exactly the attempts at size 4096 with
count at most 37. -/
def oracle37 : Submit := fun s c => (decide (s = 4096) && decide (c ≤ 37), "rejected")

/-- An oracle that accepts everything. -/
def acceptAll : Submit := fun _ _ => (true, "ok")

/-! # Theorems -/

/-! ## C10 — the two `hex_to_int` helpers -/

/-- C10, counterexample: the two `hex_to_int` helpers are *not* equivalent
total functions.  On the malformed hex string `"0xzz"` the
`block_bloat_test.py` version raises `ValueError` (its `int(h, 16)` call is
outside the `try`), while the autoshrink version returns `None`. -/
theorem C10_hex_to_int_counterexample :
    hex_to_int_bloat (PyObj.str ("0xzz")) = .error .valueError ∧
    hex_to_int_autoshrink (PyObj.str ("0xzz")) = .ok none ∧
    hex_to_int_bloat (PyObj.str ("0xzz")) ≠ hex_to_int_autoshrink (PyObj.str ("0xzz")) := by
  refine ⟨by decide, by decide, by decide⟩

/-- C10, amended: the autoshrink `hex_to_int` never raises; the two helpers
agree on every input on which the `block_bloat_test.py` version does not
raise; and that version raises only `ValueError`, only on strings that start
with `"0x"` and fail hex parsing — inputs the autoshrink version maps to
`None`. -/
theorem C10_hex_to_int_amended (x : PyObj) :
    (hex_to_int_autoshrink x).isOk = true ∧
    (∀ v, hex_to_int_bloat x = .ok v → hex_to_int_autoshrink x = .ok v) ∧
    (∀ e, hex_to_int_bloat x = .error e →
      e = .valueError ∧
      ∃ s, x = .str s ∧ pyStartsWith s ("0x") = true ∧ pyInt16 s = none ∧
        hex_to_int_autoshrink x = .ok none) := by
  cases x with
  | nonStr =>
    refine ⟨rfl, ?_, ?_⟩
    · intro v h
      simpa [hex_to_int_bloat, hex_to_int_autoshrink] using h
    · intro e h
      simp [hex_to_int_bloat] at h
  | str s =>
    by_cases hs : pyStartsWith s ("0x")
    · cases hp : pyInt16 s with
      | none =>
        refine ⟨by simp [hex_to_int_autoshrink, hs, Except.isOk, Except.toBool], ?_, ?_⟩
        · intro v h
          simp [hex_to_int_bloat, hs, hp] at h
        · intro e h
          simp [hex_to_int_bloat, hs, hp] at h
          exact ⟨h.symm, s, rfl, hs, hp, by simp [hex_to_int_autoshrink, hs, hp]⟩
      | some v0 =>
        refine ⟨by simp [hex_to_int_autoshrink, hs, Except.isOk, Except.toBool], ?_, ?_⟩
        · intro v h
          simp [hex_to_int_bloat, hs, hp] at h
          simp [hex_to_int_autoshrink, hs, hp, h]
        · intro e h
          simp [hex_to_int_bloat, hs, hp] at h
    · refine ⟨by simp [hex_to_int_autoshrink, hs, Except.isOk, Except.toBool], ?_, ?_⟩
      · intro v h
        cases hp : pyInt10 s with
        | none =>
          simp [hex_to_int_bloat, hs, hp] at h
          simp [hex_to_int_autoshrink, hs, hp, h]
        | some v0 =>
          simp [hex_to_int_bloat, hs, hp] at h
          simp [hex_to_int_autoshrink, hs, hp, h]
      · intro e h
        cases hp : pyInt10 s with
        | none => simp [hex_to_int_bloat, hs, hp] at h
        | some v0 => simp [hex_to_int_bloat, hs, hp] at h

/-- C10, witness: the amended theorem applied to the concrete input
`"0xzz"`. -/
theorem C10_hex_to_int_witness :
    PyErr.valueError = PyErr.valueError ∧
    ∃ s, PyObj.str ("0xzz") = PyObj.str s ∧ pyStartsWith s ("0x") = true ∧
      pyInt16 s = none ∧ hex_to_int_autoshrink (PyObj.str ("0xzz")) = .ok none :=
  (C10_hex_to_int_amended (PyObj.str ("0xzz"))).2.2 PyErr.valueError (by decide)

/-! ## C1, C2 — termination of the capacity probe -/

/-- Auxiliary for C1: against an oracle that rejects every attempt with a
message not mentioning "too large", the inner halving loop never exits: it
consumes every fuel.  (`nn` stays at `max min_calls (nn // 2)`, which is a
fixed point once `nn = min_calls`, and the only `break` needs the message to
contain "too large".) -/
theorem innerLoop_rejectAll_fuelOut (size mc gfuel : Nat) :
    ∀ (fuel nn : Nat) (e : Option String), 1 ≤ nn →
      (innerLoop rejectAll size mc 1 gfuel fuel nn e).2 = InnerRes.fuelOut := by
  intro fuel
  induction fuel with
  | zero => intro nn e _; rfl
  | succ f ih =>
    intro nn e h
    have hTL : tooLarge ("boom") = false := by decide
    simp only [innerLoop, rejectAll, if_pos h, hTL, and_false, if_false, Bool.false_eq_true]
    exact ih (max 1 (nn / 2)) (some ("boom")) (le_max_left 1 _)

/-- C1: the claim that `bloat_autoshrink` terminates for every fixed
deterministic Submit oracle is violated by the code: with the oracle that
rejects everything (message "boom"), the run at `start_bytes = 4096`,
`start_calls = 100`, `max_calls = 1000`, `min_bytes = 64`, `min_calls = 1`
exhausts *every* fuel bound — the inner `while nn >= min_calls` loop never
leaves `nn = min_calls`, exactly the situation the claim singles out. -/
theorem C1_autoshrink_nontermination (fuel : Nat) :
    (bloat_autoshrink rejectAll 4096 100 1000 64 1 fuel).2 = ProbeRes.fuelOut := by
  cases fuel with
  | zero => rfl
  | succ f =>
    have hin := innerLoop_rejectAll_fuelOut 4096 1000 (f + 1) (f + 1) 100 none (by omega)
    rcases hpair : innerLoop rejectAll 4096 1000 1 (f + 1) (f + 1) 100 none with ⟨tr, r⟩
    rw [hpair] at hin
    simp only at hin
    subst hin
    have : bloat_autoshrink rejectAll 4096 100 1000 64 1 (f + 1) =
        outerLoop rejectAll 64 1 1000 4096 100 (f + 1) (f + 1) (f + 1) 4096 100 := by
      simp [bloat_autoshrink]
    rw [this]
    simp only [outerLoop]
    norm_num
    rw [hpair]

/-- C2: the claim that an everywhere-rejecting oracle makes the probe raise
`NoFeasibleUnit` is violated by the code: with every attempt rejected as
"Transaction is too large", `start_bytes = 100` (not a power-of-two multiple
of `min_bytes = 64`), the outer loop halves `100 → 50`, the guard
`50 >= 64` fails *before* the `raise`, and the function returns Python `None`
normally. -/
theorem C2_autoshrink_returns_none :
    (bloat_autoshrink rejectTooLarge 100 10 100 64 1 10).2 = ProbeRes.retNone := by
  decide


/-! ## C3 — soundness of a returned `(size, count)` -/

/-- The growth loop keeps only accepted counts: starting from an accepted
`best`, the result is accepted, at least `best`, and is either `best` itself
or one of the attempts the loop made. -/
theorem grow_accepted (submit : Submit) (size mc : Nat) :
    ∀ (fuel best probe : Nat), (submit size best).1 = true →
      (submit size (grow submit size mc fuel best probe).2).1 = true ∧
      best ≤ (grow submit size mc fuel best probe).2 ∧
      ((grow submit size mc fuel best probe).2 = best ∨
        (size, (grow submit size mc fuel best probe).2) ∈
          (grow submit size mc fuel best probe).1) := by
  intro fuel
  induction fuel with
  | zero => intro best probe h; exact ⟨h, le_refl _, Or.inl rfl⟩
  | succ f ih =>
    intro best probe h
    by_cases hc : best < probe ∧ probe ≤ mc
    · by_cases hacc : (submit size probe).1 = true
      · have hr := ih probe (min mc (probe * 11 / 10 + 1)) hacc
        simp only [grow, if_pos hc, hacc, if_true]
        refine ⟨hr.1, le_trans (le_of_lt hc.1) hr.2.1, Or.inr ?_⟩
        rcases hr.2.2 with heq | hmem
        · rw [heq]; exact List.mem_cons_self _ _
        · exact List.mem_cons_of_mem _ hmem
      · refine ⟨?_, ?_, ?_⟩ <;> simp only [grow, if_pos hc, hacc, if_false, Bool.false_eq_true]
        · exact h
        · exact le_refl _
        · exact Or.inl trivial
    · refine ⟨?_, ?_, ?_⟩ <;> simp only [grow, if_neg hc]
      · exact h
      · exact le_refl _
      · exact Or.inl trivial

/-- If the inner count search returns `.found b`, then `b` was accepted,
respects `min_calls`, and `(size, b)` is among the attempts made. -/
theorem innerLoop_found_sound (submit : Submit) (size mc minC gfuel : Nat) :
    ∀ (fuel nn : Nat) (e : Option String) (tr : List (Nat × Nat)) (b : Nat),
      innerLoop submit size mc minC gfuel fuel nn e = (tr, .found b) →
      (submit size b).1 = true ∧ minC ≤ b ∧ (size, b) ∈ tr := by
  intro fuel
  induction fuel with
  | zero => intro nn e tr b h; simp [innerLoop] at h
  | succ f ih =>
    intro nn e tr b h
    by_cases hg : minC ≤ nn
    · rcases hsub : submit size nn with ⟨ok, info⟩
      cases ok with
      | true =>
        have hacc : (submit size nn).1 = true := by rw [hsub]
        have hgrow := grow_accepted submit size mc gfuel nn
          (min mc (nn * 11 / 10 + 1)) hacc
        simp only [innerLoop, if_pos hg, hsub, if_true, Prod.mk.injEq,
          InnerRes.found.injEq] at h
        obtain ⟨htr, hb⟩ := h
        subst htr
        refine ⟨hb ▸ hgrow.1, hb ▸ le_trans hg hgrow.2.1, ?_⟩
        rcases hgrow.2.2 with heq | hmem
        · rw [← hb, heq]; exact List.mem_cons_self _ _
        · exact hb ▸ List.mem_cons_of_mem _ hmem
      | false =>
        simp only [innerLoop, if_pos hg, hsub, if_false, Bool.false_eq_true] at h
        by_cases hbrk : max minC (nn / 2) = 1 ∧ tooLarge info = true
        · rw [if_pos hbrk] at h
          simp at h
        · rw [if_neg hbrk] at h
          rcases hr : innerLoop submit size mc minC gfuel f (max minC (nn / 2))
            (some info) with ⟨tr', r'⟩
          rw [hr] at h
          simp only [Prod.mk.injEq] at h
          obtain ⟨htr, hb⟩ := h
          subst htr
          have := ih (max minC (nn / 2)) (some info) tr' b (by rw [hr, hb])
          exact ⟨this.1, this.2.1, List.mem_cons_of_mem _ this.2.2⟩
    · simp only [innerLoop, if_neg hg] at h
      simp at h

/-- If the outer loop returns `.found s c`, then `(s, c)` was attempted and
accepted, `s` respects `min_bytes` and `c` respects `min_calls`. -/
theorem outerLoop_found_sound (submit : Submit) (minB minC mc startB startC ifuel gfuel : Nat) :
    ∀ (fuel size n : Nat) (tr : List (Nat × Nat)) (s c : Nat),
      outerLoop submit minB minC mc startB startC ifuel gfuel fuel size n = (tr, .found s c) →
      (submit s c).1 = true ∧ minB ≤ s ∧ minC ≤ c ∧ (s, c) ∈ tr := by
  intro fuel
  induction fuel with
  | zero => intro size n tr s c h; simp [outerLoop] at h
  | succ f ih =>
    intro size n tr s c h
    by_cases hg : minB ≤ size
    · rcases hin : innerLoop submit size mc minC gfuel ifuel (min n mc) none with ⟨tri, ri⟩
      cases ri with
      | found best =>
        have hsound := innerLoop_found_sound submit size mc minC gfuel ifuel
          (min n mc) none tri best hin
        simp only [outerLoop, if_pos hg, hin, Prod.mk.injEq, ProbeRes.found.injEq] at h
        obtain ⟨htr, hs, hc⟩ := h
        subst htr
        exact ⟨hs ▸ hc ▸ hsound.1, hs ▸ hg, hc ▸ hsound.2.1, hs ▸ hc ▸ hsound.2.2⟩
      | fuelOut =>
        simp only [outerLoop, if_pos hg, hin] at h
        simp at h
      | stop lastErr =>
        simp only [outerLoop, if_pos hg, hin] at h
        by_cases hfloor : size ≤ minB
        · rw [if_pos hfloor] at h
          simp at h
        · rw [if_neg hfloor] at h
          rcases hro : outerLoop submit minB minC mc startB startC ifuel gfuel f
            (size / 2) (max minC (startC / max 1 ((startB + size / 2 - 1) / (size / 2))))
            with ⟨tro, ro⟩
          rw [hro] at h
          simp only [Prod.mk.injEq] at h
          obtain ⟨htr, hr⟩ := h
          have := ih (size / 2) (max minC (startC / max 1 ((startB + size / 2 - 1) / (size / 2))))
            tro s c (by rw [hro, hr])
          subst htr
          exact ⟨this.1, this.2.1, this.2.2.1, List.mem_append_right _ this.2.2.2⟩
    · simp only [outerLoop, if_neg hg] at h
      simp at h

/-- C3: if `bloat_autoshrink` returns a pair `(s, c)` (with
`min_bytes ≥ 1`, `min_calls ≥ 1`), then the run made a Submit attempt at
exactly `(s, c)`, that attempt was accepted by the oracle, and
`s ≥ min_bytes`, `c ≥ min_calls`. -/
theorem C3_probe_sound (submit : Submit) (startB startC maxC minB minC fuel s c : Nat)
    (_hB : 1 ≤ minB) (_hC : 1 ≤ minC)
    (h : (bloat_autoshrink submit startB startC maxC minB minC fuel).2 = .found s c) :
    (s, c) ∈ (bloat_autoshrink submit startB startC maxC minB minC fuel).1 ∧
    (submit s c).1 = true ∧ minB ≤ s ∧ minC ≤ c := by
  rcases hp : bloat_autoshrink submit startB startC maxC minB minC fuel with ⟨tr, r⟩
  rw [hp] at h
  simp only at h
  subst h
  have := outerLoop_found_sound submit minB minC (max minC maxC) startB startC fuel fuel
    fuel (max minB startB) (max minC startC) tr s c (by rw [← hp]; rfl)
  exact ⟨this.2.2.2, this.1, this.2.1, this.2.2.1⟩

/-- C3, witness: the all-accepting oracle at `start_bytes = 4096`,
`start_calls = 10`, `max_calls = 20`, `min_bytes = 64`, `min_calls = 1`
returns `(4096, 20)`, which indeed was attempted, accepted, and respects the
floors. -/
theorem C3_probe_sound_witness :
    (4096, 20) ∈ (bloat_autoshrink acceptAll 4096 10 20 64 1 10).1 ∧
    (acceptAll 4096 20).1 = true ∧ 64 ≤ 4096 ∧ 1 ≤ 20 :=
  C3_probe_sound acceptAll 4096 10 20 64 1 10 4096 20 (by decide) (by decide) (by decide)

/-- One accepted step of the growth loop, with the clamped next probe value
given explicitly. -/
theorem grow_step_accept (submit : Submit) (size mc fuel best probe probe2 : Nat)
    (h1 : best < probe) (h2 : probe ≤ mc) (hacc : (submit size probe).1 = true)
    (hp2 : min mc (probe * 11 / 10 + 1) = probe2) :
    grow submit size mc (fuel + 1) best probe =
      ((size, probe) :: (grow submit size mc fuel probe probe2).1,
        (grow submit size mc fuel probe probe2).2) := by
  simp only [grow, if_pos (And.intro h1 h2), hacc, if_true, hp2]

/-- The growth loop stops at the first rejection, keeping the last accepted
count. -/
theorem grow_step_reject (submit : Submit) (size mc fuel best probe : Nat)
    (h1 : best < probe) (h2 : probe ≤ mc) (hrej : (submit size probe).1 = false) :
    grow submit size mc (fuel + 1) best probe = ([(size, probe)], best) := by
  simp only [grow, if_pos (And.intro h1 h2), hrej, if_false, Bool.false_eq_true]

/-- An accepted inner-search attempt hands over to the growth loop. -/
theorem innerLoop_step_accept (submit : Submit) (size mc minC gfuel fuel nn probe2 : Nat)
    (e : Option String) (hg : minC ≤ nn) (hacc : (submit size nn).1 = true)
    (hp2 : min mc (nn * 11 / 10 + 1) = probe2) :
    innerLoop submit size mc minC gfuel (fuel + 1) nn e =
      ((size, nn) :: (grow submit size mc gfuel nn probe2).1,
        .found (grow submit size mc gfuel nn probe2).2) := by
  rcases hsub : submit size nn with ⟨ok, info⟩
  rw [hsub] at hacc
  simp only at hacc
  subst hacc
  simp only [innerLoop, if_pos hg, hsub, if_true, hp2]

/-- A rejected inner-search attempt halves the count (clamped value given
explicitly) and continues when the too-large break does not fire. -/
theorem innerLoop_step_reject (submit : Submit) (size mc minC gfuel fuel nn nn2 : Nat)
    (e : Option String) (info : String)
    (hg : minC ≤ nn) (hsub : submit size nn = (false, info))
    (hnn2 : max minC (nn / 2) = nn2)
    (hbrk : ¬(nn2 = 1 ∧ tooLarge info = true)) :
    innerLoop submit size mc minC gfuel (fuel + 1) nn e =
      ((size, nn) :: (innerLoop submit size mc minC gfuel fuel nn2 (some info)).1,
        (innerLoop submit size mc minC gfuel fuel nn2 (some info)).2) := by
  simp only [innerLoop, if_pos hg, hsub, if_false, Bool.false_eq_true, hnn2, if_neg hbrk]

/-- The outer loop returns the inner search's accepted pair unchanged. -/
theorem outerLoop_step_found (submit : Submit) (minB minC mc startB startC ifuel gfuel : Nat)
    (fuel size n : Nat) (tr : List (Nat × Nat)) (best : Nat)
    (hg : minB ≤ size)
    (hin : innerLoop submit size mc minC gfuel ifuel (min n mc) none = (tr, .found best)) :
    outerLoop submit minB minC mc startB startC ifuel gfuel (fuel + 1) size n =
      (tr, .found size best) := by
  simp only [outerLoop, if_pos hg, hin]

/-- C4: with the oracle that accepts at size 4096 exactly the counts `≤ 37`,
the probe started at `start_calls = 100`, `min_calls = 1` and any
`max_calls ≥ 100` returns size 4096 with count 35 — inside the claimed
interval `[34, 37]`.  (Halving 100 → 50 → 25, then growing
25 → 28 → 31 → 35, with 39 rejected.) -/
theorem C4_probe_scenario (mc : Nat) (h : 100 ≤ mc) :
    (bloat_autoshrink oracle37 4096 100 mc 64 1 4).2 = ProbeRes.found 4096 35 ∧
    34 ≤ 35 ∧ 35 ≤ 37 := by
  refine ⟨?_, by omega, by omega⟩
  have hg1 : grow oracle37 4096 mc 1 35 39 = ([(4096, 39)], 35) :=
    grow_step_reject oracle37 4096 mc 0 35 39 (by omega) (by omega) (by decide)
  have hg2 : grow oracle37 4096 mc 2 31 35 = ([(4096, 35), (4096, 39)], 35) := by
    rw [grow_step_accept oracle37 4096 mc 1 31 35 39 (by omega) (by omega) (by decide)
      (by omega), hg1]
  have hg3 : grow oracle37 4096 mc 3 28 31 = ([(4096, 31), (4096, 35), (4096, 39)], 35) := by
    rw [grow_step_accept oracle37 4096 mc 2 28 31 35 (by omega) (by omega) (by decide)
      (by omega), hg2]
  have hg4 : grow oracle37 4096 mc 4 25 28 =
      ([(4096, 28), (4096, 31), (4096, 35), (4096, 39)], 35) := by
    rw [grow_step_accept oracle37 4096 mc 3 25 28 31 (by omega) (by omega) (by decide)
      (by omega), hg3]
  have hi25 : innerLoop oracle37 4096 mc 1 4 2 25 (some ("rejected")) =
      ((4096, 25) :: [(4096, 28), (4096, 31), (4096, 35), (4096, 39)], .found 35) := by
    rw [innerLoop_step_accept oracle37 4096 mc 1 4 1 25 28 (some ("rejected"))
      (by omega) (by decide) (by omega), hg4]
  have hi50 : innerLoop oracle37 4096 mc 1 4 3 50 (some ("rejected")) =
      ((4096, 50) :: (4096, 25) :: [(4096, 28), (4096, 31), (4096, 35), (4096, 39)],
        .found 35) := by
    rw [innerLoop_step_reject oracle37 4096 mc 1 4 2 50 25 (some ("rejected")) ("rejected")
      (by omega) (by decide) (by omega) (by decide), hi25]
  have hi100 : innerLoop oracle37 4096 mc 1 4 4 100 none =
      ((4096, 100) :: (4096, 50) :: (4096, 25) ::
        [(4096, 28), (4096, 31), (4096, 35), (4096, 39)], .found 35) := by
    rw [innerLoop_step_reject oracle37 4096 mc 1 4 3 100 50 none ("rejected")
      (by omega) (by decide) (by omega) (by decide), hi50]
  have hbloat : bloat_autoshrink oracle37 4096 100 mc 64 1 4 =
      outerLoop oracle37 64 1 mc 4096 100 4 4 4 4096 100 := by
    simp only [bloat_autoshrink]
    rw [(by omega : max 1 mc = mc), (by omega : max 64 4096 = 4096),
      (by omega : max 1 100 = 100)]
  rw [hbloat, outerLoop_step_found oracle37 64 1 mc 4096 100 4 4 3 4096 100 _ 35
    (by omega) (by rw [(by omega : min 100 mc = 100)]; exact hi100)]

/-- C4, witness: the scenario theorem applied at `max_calls = 100`. -/
theorem C4_probe_scenario_witness :
    (bloat_autoshrink oracle37 4096 100 100 64 1 4).2 = ProbeRes.found 4096 35 ∧
    34 ≤ 35 ∧ 35 ≤ 37 :=
  C4_probe_scenario 100 (by decide)

/-! ## C5 — `submit_many_and_wait` partitions its units -/

/-- Two `filterMap`s that fire on complementary elements split a list's
length exactly. -/
theorem filterMap_partition_length {α β γ : Type} (p : α → Option β) (q : α → Option γ) :
    ∀ l : List α, (∀ x ∈ l, ((p x).isSome = true ∧ q x = none) ∨ (p x = none ∧ (q x).isSome = true)) →
      (l.filterMap p).length + (l.filterMap q).length = l.length := by
  intro l
  induction l with
  | nil => intro _; rfl
  | cons x xs ih =>
    intro hl
    have hx := hl x (List.mem_cons_self _ _)
    have hrest := fun y hy => hl y (List.mem_cons_of_mem _ hy)
    rcases hx with ⟨hp, hq⟩ | ⟨hp, hq⟩
    · rcases Option.isSome_iff_exists.mp hp with ⟨b, hb⟩
      simp [List.filterMap_cons, hb, hq, ← ih hrest]
      omega
    · rcases Option.isSome_iff_exists.mp hq with ⟨c, hc⟩
      simp [List.filterMap_cons, hp, hc, ← ih hrest]
      omega

/-- C5: every run of `submit_many_and_wait` on `num` unit specs partitions
them exactly: `len(included) + len(failed) = num` — each unit yields either
one inclusion record, one timeout failure, or one submission-failure
record. -/
theorem C5_submit_partition (num : Nat) (submitRes : Nat → Except String String)
    (pollRes : String → Option (Option Int)) :
    (submit_many_and_wait num submitRes pollRes).1.length +
      (submit_many_and_wait num submitRes pollRes).2.length = num := by
  have hres : ∀ x ∈ (List.range num).map fun i => (i, submitRes i),
      (((fun p : Nat × Except String String =>
          match p.2 with
          | .error e => some ("submit#" ++ toString p.1, e)
          | .ok _ => none) x).isSome = true ∧
        (fun p : Nat × Except String String => p.2.toOption) x = none) ∨
      (((fun p : Nat × Except String String =>
          match p.2 with
          | .error e => some ("submit#" ++ toString p.1, e)
          | .ok _ => none) x) = none ∧
        ((fun p : Nat × Except String String => p.2.toOption) x).isSome = true) := by
    intro x _
    rcases x with ⟨i, r⟩
    cases r with
    | error e => left; simp [Except.toOption]
    | ok v => right; simp [Except.toOption]
  have h1 := filterMap_partition_length
    (fun p : Nat × Except String String =>
      match p.2 with
      | .error e => some ("submit#" ++ toString p.1, e)
      | .ok _ => none)
    (fun p : Nat × Except String String => p.2.toOption)
    ((List.range num).map fun i => (i, submitRes i)) hres
  have hpoll : ∀ h ∈ ((List.range num).map fun i => (i, submitRes i)).filterMap
      (fun p : Nat × Except String String => p.2.toOption),
      (((fun hh : String => (pollRes hh).map fun ht => (hh, ht)) h).isSome = true ∧
        (fun hh : String =>
          match pollRes hh with
          | none => some (hh, "timeout")
          | some _ => none) h = none) ∨
      (((fun hh : String => (pollRes hh).map fun ht => (hh, ht)) h) = none ∧
        ((fun hh : String =>
          match pollRes hh with
          | none => some (hh, "timeout")
          | some _ => none) h).isSome = true) := by
    intro hh _
    cases hp : pollRes hh with
    | none => right; simp [hp]
    | some ht => left; simp [hp]
  have h2 := filterMap_partition_length
    (fun hh : String => (pollRes hh).map fun ht => (hh, ht))
    (fun hh : String =>
      match pollRes hh with
      | none => some (hh, "timeout")
      | some _ => none)
    (((List.range num).map fun i => (i, submitRes i)).filterMap
      (fun p : Nat × Except String String => p.2.toOption)) hpoll
  simp only [submit_many_and_wait]
  by_cases he : (((List.range num).map fun i => (i, submitRes i)).filterMap
      (fun p : Nat × Except String String => p.2.toOption)).isEmpty
  · rw [if_pos he]
    have : (((List.range num).map fun i => (i, submitRes i)).filterMap
        (fun p : Nat × Except String String => p.2.toOption)).length = 0 := by
      rcases List.isEmpty_iff.mp he with h
      simp [h]
    simp only [List.length_nil]
    simp only [List.length_map, List.length_range] at h1
    omega
  · rw [if_neg he]
    simp only [List.length_append]
    simp only [List.length_map, List.length_range] at h1
    omega

/-! ## C6 — the retry policy of `AsyncEspressoDAClient.submit` -/

/-- C6: the code contradicts the claimed (and its own commented) retry
policy.  With every POST answered by HTTP 400 — non-retryable per the code's
own comment — and `retries = 3`, `backoff_base = 1/4`, the client does *not*
fail immediately: its `raise` is caught by the loop's own
`except Exception`, so it makes 3 POSTs and sleeps `1/4` and `1/2` seconds
before finally raising.  And with every POST answered by the retryable
HTTP 429 it retries with *no* backoff sleep at all (the fall-through skips
the `except` block that sleeps). -/
theorem C6_retry_divergence :
    clientSubmit (fun _ => .http 400 ("bad")) 3 (1 / 4) =
      ⟨3, [1 / 4, 1 / 2], .error ("HTTP 400: bad")⟩ ∧
    clientSubmit (fun _ => .http 429 ("slow")) 3 (1 / 4) =
      ⟨3, [], .error ("HTTP 429: slow")⟩ := by
  constructor
  · norm_num [clientSubmit, submitAux, retryableStatus]
    rfl
  · decide

/-! ## C7 — determinism of the payload generators -/

/-- C7, counterexample: `mk_payload` is *not* deterministic in
`(base, idx, size)`: it embeds `str(int(time.time() * 1000))`, so the same
arguments at two different milliseconds give different bytes. -/
theorem C7_mk_payload_counterexample :
    mk_payload baseMsg 0 128 1000 ≠ mk_payload baseMsg 0 128 2000 := by
  decide

/-- C7, amended: `deterministic_payload` is deterministic — its output
depends only on `n_bytes`, not on the clock (the wrapper
`deterministic_payload_at` exposes the ambient time explicitly); `mk_payload`
is deterministic only once the millisecond timestamp it reads is fixed. -/
theorem C7_payload_determinism_amended :
    (∀ n t1 t2, deterministic_payload_at n t1 = deterministic_payload_at n t2) ∧
    (∀ base idx size t1 t2, t1 = t2 →
      mk_payload base idx size t1 = mk_payload base idx size t2) :=
  ⟨fun _ _ _ => rfl, fun _ _ _ _ _ h => by rw [h]⟩

/-- C7, witness: the amended theorem applied at concrete arguments. -/
theorem C7_payload_determinism_witness :
    deterministic_payload_at 16 0 = deterministic_payload_at 16 999 ∧
    mk_payload baseMsg 0 128 1000 = mk_payload baseMsg 0 128 1000 :=
  ⟨C7_payload_determinism_amended.1 16 0 999,
    C7_payload_determinism_amended.2 baseMsg 0 128 1000 1000 rfl⟩

/-! ## C8 — `calculate_tps` -/

/-- When every record carries a timestamp, filtering the timestamps is just
mapping them out. -/
theorem filterMap_ts_eq_map :
    ∀ (l : List AvailBlock), (∀ x ∈ l, x.block_timestamp.isSome = true) →
      l.filterMap (fun b => b.block_timestamp) =
        l.map (fun b => b.block_timestamp.getD 0) := by
  intro l
  induction l with
  | nil => intro _; rfl
  | cons x xs ih =>
    intro h
    obtain ⟨v, hv⟩ := Option.isSome_iff_exists.mp (h x (List.mem_cons_self _ _))
    simp [List.filterMap_cons, hv, ih fun y hy => h y (List.mem_cons_of_mem _ hy)]

/-- Folding `max` over elements all below the seed returns the seed. -/
theorem foldl_max_of_le (t : Int) :
    ∀ ts : List Int, (∀ x ∈ ts, x ≤ t) → ts.foldl max t = t := by
  intro ts
  induction ts with
  | nil => intro _; rfl
  | cons s ss ih =>
    intro h
    have hs : max t s = t := max_eq_left (h s (List.mem_cons_self _ _))
    simp only [List.foldl_cons, hs]
    exact ih fun y hy => h y (List.mem_cons_of_mem _ hy)

/-- In a descending chain the head is the maximum. -/
theorem foldl_max_of_chain (t : Int) (ts : List Int)
    (h : List.Chain' (fun a b : Int => b ≤ a) (t :: ts)) : ts.foldl max t = t := by
  have : ∀ x ∈ ts, x ≤ t := by
    have hp := (List.chain'_iff_pairwise.mp h)
    exact fun x hx => (List.pairwise_cons.mp hp).1 x hx
  exact foldl_max_of_le t ts this

/-- In a descending chain the last element is the minimum. -/
theorem foldl_min_of_chain :
    ∀ (ts : List Int) (t : Int), List.Chain' (fun a b : Int => b ≤ a) (t :: ts) →
      ts.foldl min t = (t :: ts).getLast (List.cons_ne_nil _ _) := by
  intro ts
  induction ts with
  | nil => intro t _; rfl
  | cons s ss ih =>
    intro t h
    have hst : s ≤ t := (List.chain'_cons.mp h).1
    have hrest : List.Chain' (fun a b : Int => b ≤ a) (s :: ss) := (List.chain'_cons.mp h).2
    simp only [List.foldl_cons, min_eq_right hst]
    rw [ih s hrest]
    exact (List.getLast_cons (List.cons_ne_nil _ _)).symm

/-- `getLast` commutes with `map` on a nonempty list. -/
theorem getLast_map_cons {α β : Type} (g : α → β) :
    ∀ (rest : List α) (b : α),
      ((b :: rest).map g).getLast (by simp) = g ((b :: rest).getLast (List.cons_ne_nil _ _)) := by
  intro rest
  induction rest with
  | nil => intro b; rfl
  | cons s ss ih =>
    intro b
    have h1 : ((s :: ss).map g) ≠ [] := by simp
    calc ((b :: s :: ss).map g).getLast (by simp)
        = ((s :: ss).map g).getLast h1 := List.getLast_cons h1
      _ = g ((s :: ss).getLast (List.cons_ne_nil _ _)) := ih s
      _ = g ((b :: s :: ss).getLast (List.cons_ne_nil _ _)) := by
          rw [List.getLast_cons (List.cons_ne_nil s ss)]

/-- C8, amended: both `calculate_tps` versions return `0` on the empty list;
the Celestia version returns `0` whenever a record lacks a height (the sort
key's `KeyError` is caught); and the Avail version agrees with the claimed
earliest/latest formula exactly when every record carries a timestamp and the
list is in descending timestamp order (as fetched), since the code reads
`blocks[0]` and `blocks[-1]` by position. -/
theorem C8_calculate_tps_amended :
    avail_calculate_tps [] = .ok 0 ∧
    (∀ parse, celestia_calculate_tps parse [] = .ok 0) ∧
    (∀ parse (b : CelBlock) (rest : List CelBlock), (∃ x ∈ b :: rest, x.height = none) →
      celestia_calculate_tps parse (b :: rest) = .ok 0) ∧
    (∀ (b : AvailBlock) (rest : List AvailBlock),
      (∀ x ∈ b :: rest, x.block_timestamp.isSome = true) →
      List.Chain' (fun x y : AvailBlock =>
        y.block_timestamp.getD 0 ≤ x.block_timestamp.getD 0) (b :: rest) →
      avail_calculate_tps (b :: rest) = claimed_tps (b :: rest)) := by
  refine ⟨rfl, fun _ => rfl, ?_, ?_⟩
  · intro parse b rest hex
    have hany : (b :: rest).any (fun blk => blk.height = none) = true := by
      rcases hex with ⟨x, hx, hnone⟩
      exact List.any_eq_true.mpr ⟨x, hx, by simp [hnone]⟩
    simp [celestia_calculate_tps, hany]
  · intro b rest hsome hchain
    obtain ⟨et, het⟩ := Option.isSome_iff_exists.mp (hsome b (List.mem_cons_self _ _))
    cases rest with
    | nil => simp [avail_calculate_tps, claimed_tps, het]
    | cons r rs =>
      have hlmem : (r :: rs).getLast (List.cons_ne_nil r rs) ∈ b :: r :: rs := by
        exact List.mem_cons_of_mem _ (List.getLast_mem _)
      obtain ⟨st, hst⟩ := Option.isSome_iff_exists.mp (hsome _ hlmem)
      have hchain' : List.Chain' (fun a c : Int => c ≤ a)
          ((b :: r :: rs).map (fun x => x.block_timestamp.getD 0)) :=
        (List.chain'_map _).mpr hchain
      rw [List.map_cons] at hchain'
      have hb0 : b.block_timestamp.getD 0 = et := by simp [het]
      rw [hb0] at hchain'
      have hhi := foldl_max_of_chain et ((r :: rs).map fun x => x.block_timestamp.getD 0)
        hchain'
      have hlo0 := foldl_min_of_chain ((r :: rs).map fun x => x.block_timestamp.getD 0) et
        hchain'
      have hmapne : ((r :: rs).map fun x : AvailBlock => x.block_timestamp.getD 0) ≠ [] := by
        simp
      have hlast2 : ((r :: rs).map fun x : AvailBlock => x.block_timestamp.getD 0).getLast
          hmapne = st := by
        rw [getLast_map_cons (fun x : AvailBlock => x.block_timestamp.getD 0) rs r, hst]
        rfl
      have hlo : ((r :: rs).map fun x : AvailBlock => x.block_timestamp.getD 0).foldl min et
          = st := by
        rw [hlo0, List.getLast_cons hmapne, hlast2]
      have hstfull : ((b :: r :: rs).getLast (List.cons_ne_nil b (r :: rs))).block_timestamp
          = some st := by
        rw [List.getLast_cons (List.cons_ne_nil r rs)]
        exact hst
      simp only [avail_calculate_tps, claimed_tps, filterMap_ts_eq_map _ hsome,
        List.map_cons, hstfull, het, Option.getD_some, hhi, hlo]
      rw [List.map_cons] at hhi hlo
      rw [hhi, hlo]

/-- C8, counterexample: the claim fails as stated.  On an *ascending* list
the Avail code returns `0` although the elapsed time between earliest and
latest is positive (the claim demands `total / elapsed = 1`); on a record
without a timestamp it raises `TypeError`; and the Celestia version
propagates time-parse errors instead of returning a value. -/
theorem C8_calculate_tps_counterexample :
    avail_calculate_tps [⟨some 10, some 5⟩, ⟨some 20, some 5⟩] = .ok 0 ∧
    claimed_tps [⟨some 10, some 5⟩, ⟨some 20, some 5⟩] = .ok 1 ∧
    avail_calculate_tps [⟨none, some 5⟩] = .error .typeError ∧
    celestia_calculate_tps (fun _ => .error .valueError)
      [⟨some 1, some ("a"), 1⟩, ⟨some 2, some ("b"), 1⟩] = .error .valueError := by
  refine ⟨by decide, ?_, by decide, by decide⟩
  simp only [claimed_tps, List.filterMap_cons, List.filterMap_nil, List.foldl_cons,
    List.foldl_nil]
  norm_num

/-- C8, witness: the amended theorem applied at concrete inputs — a
missing-height Celestia record, and a descending well-formed Avail list. -/
theorem C8_calculate_tps_witness :
    celestia_calculate_tps (fun _ => .ok 0) [⟨none, some ("a"), 1⟩] = .ok 0 ∧
    avail_calculate_tps [⟨some 20, some 5⟩, ⟨some 10, some 5⟩] =
      claimed_tps [⟨some 20, some 5⟩, ⟨some 10, some 5⟩] :=
  ⟨C8_calculate_tps_amended.2.2.1 (fun _ => .ok 0) ⟨none, some ("a"), 1⟩ []
      ⟨⟨none, some ("a"), 1⟩, by simp, rfl⟩,
    C8_calculate_tps_amended.2.2.2 ⟨some 20, some 5⟩ [⟨some 10, some 5⟩]
      (by decide) (by simp [List.chain'_cons])⟩

/-! ## C9 — the semaphore bounds concurrent Submit/Poll calls -/

/-- Updating one list entry shifts a mapped sum by the difference of the
mapped values (stated addition-only, to stay in `Nat`). -/
theorem sum_map_set {α : Type} (f : α → Nat) :
    ∀ (l : List α) (i : Nat) (a b : α), l.get? i = some a →
      ((l.set i b).map f).sum + f a = (l.map f).sum + f b := by
  intro l
  induction l with
  | nil => intro i a b h; simp at h
  | cons x xs ih =>
    intro i a b h
    cases i with
    | zero =>
      rw [List.get?_cons_zero] at h
      injection h with h
      subst h
      simp only [List.set_cons_zero, List.map_cons, List.sum_cons]
      omega
    | succ j =>
      rw [List.get?_cons_succ] at h
      have hih := ih j a b h
      simp only [List.set_cons_succ, List.map_cons, List.sum_cons]
      omega

/-- An element of `l.set i b` is an element of `l` or is `b`. -/
theorem mem_of_mem_set {α : Type} :
    ∀ (l : List α) (i : Nat) (b x : α), x ∈ l.set i b → x ∈ l ∨ x = b := by
  intro l
  induction l with
  | nil => intro i b x h; simp [List.set] at h
  | cons y ys ih =>
    intro i b x h
    cases i with
    | zero =>
      rcases List.mem_cons.mp h with h1 | h1
      · right; exact h1
      · left; exact List.mem_cons_of_mem _ h1
    | succ j =>
      rcases List.mem_cons.mp h with h1 | h1
      · left; exact h1 ▸ List.mem_cons_self _ _
      · rcases ih j b x h1 with h2 | h2
        · left; exact List.mem_cons_of_mem _ h2
        · right; exact h2

/-- One event-loop step preserves the semaphore invariant. -/
theorem schedStep_inv {c : Nat} {s s' : Sched} (hstep : SchedStep s s')
    (hinv : SchedInv c s) : SchedInv c s' := by
  obtain ⟨hok, hcount⟩ := hinv
  cases hstep with
  | acq i t rest a ht hp ha =>
    have htmem : t ∈ s.tasks := List.get?_mem ht
    have htok := hok t htmem
    have hw : ∃ w, allWork w ∧ rest = w ++ [Act.rel] := by
      rcases htok with ⟨_, hcase | hnil⟩ | ⟨_, w, hw, hprog⟩
      · rcases hcase with ⟨w, hw, hprog⟩
        rw [hp] at hprog
        exact ⟨w, hw, by injection hprog⟩
      · rw [hp] at hnil; simp at hnil
      · rw [hp] at hprog
        cases w with
        | nil => simp at hprog
        | cons a0 w0 =>
          have : a0 = Act.work := hw a0 (List.mem_cons_self _ _)
          simp at hprog
          rw [this] at hprog
          exact absurd hprog.1.symm (by simp)
    have hholds : t.holds = false := by
      rcases htok with ⟨hf, _⟩ | ⟨_, w, hw, hprog⟩
      · exact hf
      · rw [hp] at hprog
        cases w with
        | nil => simp at hprog
        | cons a0 w0 =>
          have : a0 = Act.work := hw a0 (List.mem_cons_self _ _)
          simp at hprog
          rw [this] at hprog
          exact absurd hprog.1.symm (by simp)
    constructor
    · intro t' ht'
      rcases mem_of_mem_set _ _ _ _ ht' with hmem | heq
      · exact hok t' hmem
      · subst heq
        rcases hw with ⟨w, hww, hrest⟩
        exact Or.inr ⟨rfl, w, hww, hrest⟩
    · have hsum := sum_map_set (fun t : TaskSt => if t.holds then 1 else 0)
        s.tasks i t ⟨rest, true⟩ ht
      simp only [holders] at hcount ⊢
      simp [hholds] at hsum ⊢
      omega
  | work i t rest ht hp =>
    have htmem : t ∈ s.tasks := List.get?_mem ht
    have htok := hok t htmem
    constructor
    · intro t' ht'
      rcases mem_of_mem_set _ _ _ _ ht' with hmem | heq
      · exact hok t' hmem
      · subst heq
        rcases htok with ⟨hf, hcase | hnil⟩ | ⟨htr, w, hw, hprog⟩
        · rcases hcase with ⟨w, hww, hprog⟩
          rw [hp] at hprog
          cases w with
          | nil => simp at hprog
          | cons a0 w0 => simp at hprog
        · rw [hp] at hnil; simp at hnil
        · rw [hp] at hprog
          cases w with
          | nil => simp at hprog
          | cons a0 w0 =>
            simp at hprog
            right
            refine ⟨htr, w0, fun a ha => hw a (List.mem_cons_of_mem _ ha), ?_⟩
            rw [hprog.2]
    · have hsum := sum_map_set (fun t : TaskSt => if t.holds then 1 else 0)
        s.tasks i t ⟨rest, t.holds⟩ ht
      simp only [holders] at hcount ⊢
      simp at hsum ⊢
      omega
  | rel i t rest ht hp =>
    have htmem : t ∈ s.tasks := List.get?_mem ht
    have htok := hok t htmem
    have hkey : t.holds = true ∧ rest = [] := by
      rcases htok with ⟨hf, hcase | hnil⟩ | ⟨htr, w, hw, hprog⟩
      · rcases hcase with ⟨w, hww, hprog⟩
        rw [hp] at hprog
        simp at hprog
      · rw [hp] at hnil; simp at hnil
      · rw [hp] at hprog
        cases w with
        | nil =>
          simp at hprog
          exact ⟨htr, hprog⟩
        | cons a0 w0 =>
          have : a0 = Act.work := hw a0 (List.mem_cons_self _ _)
          simp at hprog
          rw [this] at hprog
          exact absurd hprog.1.symm (by simp)
    constructor
    · intro t' ht'
      rcases mem_of_mem_set _ _ _ _ ht' with hmem | heq
      · exact hok t' hmem
      · subst heq
        exact Or.inl ⟨rfl, Or.inr (by simp [hkey.2])⟩
    · have hsum := sum_map_set (fun t : TaskSt => if t.holds then 1 else 0)
        s.tasks i t ⟨rest, false⟩ ht
      simp only [holders] at hcount ⊢
      simp [hkey.1] at hsum ⊢
      omega

/-- The semaphore invariant holds in every reachable state. -/
theorem schedReach_inv (c : Nat) {s0 s : Sched} (h0 : SchedInv c s0)
    (hr : SchedReach s0 s) : SchedInv c s := by
  have hr' : Relation.ReflTransGen SchedStep s0 s := hr
  clear hr
  induction hr' with
  | refl => exact h0
  | tail hsteps hstep ih => exact schedStep_inv hstep ih

/-- Initially no task holds a permit. -/
theorem holders_init (c : Nat) (progs : List (List Act)) :
    holders (initSched c progs) = 0 := by
  simp only [initSched, holders]
  induction progs with
  | nil => rfl
  | cons p ps ih => simpa using ih

/-- C9: in every state the event loop can reach from the start of
`submit_many_and_wait` — all workers shaped `async with semaphore: body`,
whether `submit_worker` or `poll_one` — at most `concurrency` tasks hold a
permit simultaneously, i.e. at most `concurrency` Submit/Poll calls are in
flight at any point. -/
theorem C9_semaphore_bound (c : Nat) (progs : List (List Act)) (s : Sched)
    (hwf : ∀ p ∈ progs, (∃ k, p = submit_worker_prog k) ∨ (∃ k, p = poll_one_prog k))
    (hreach : SchedReach (initSched c progs) s) :
    holders s ≤ c := by
  have h0 : SchedInv c (initSched c progs) := by
    constructor
    · intro t ht
      simp only [initSched] at ht
      rcases List.mem_map.mp ht with ⟨p, hp, rfl⟩
      rcases hwf p hp with ⟨k, rfl⟩ | ⟨k, rfl⟩ <;>
        exact Or.inl ⟨rfl, Or.inl ⟨List.replicate k Act.work,
          fun a ha => List.eq_of_mem_replicate ha, rfl⟩⟩
    · rw [holders_init]
      simp [initSched]
  obtain ⟨-, hc⟩ := schedReach_inv c h0 hreach
  omega

/-- C9, witness: the bound instantiated for one submit worker and one poll
worker under `concurrency = 1`, at the initial state. -/
theorem C9_semaphore_bound_witness :
    holders (initSched 1 [submit_worker_prog 1, poll_one_prog 2]) ≤ 1 :=
  C9_semaphore_bound 1 [submit_worker_prog 1, poll_one_prog 2] _
    (by
      intro p hp
      rcases List.mem_cons.mp hp with rfl | hp2
      · exact Or.inl ⟨1, rfl⟩
      · rcases List.mem_cons.mp hp2 with rfl | hp3
        · exact Or.inr ⟨2, rfl⟩
        · simp at hp3)
    Relation.ReflTransGen.refl
